import Mathlib

/-!
# Verification of the PathFinder-ECE recommendation client and local history store

Shallow embedding of `src/services/geminiService.ts` (the Gemini service module and the
`App` component concatenated in that file).  The service functions `scanResume` and
`getCareerRecommendations` are modelled as functions of the provider's outcome (the
`@google/genai` call is an external collaborator: it either rejects or resolves with a
response whose `text` may be absent).  The `App` component's history operations
(`saveToLocalStorage`, `handleSave`, `deleteHistoryItem`, the Clear-All handler and the
startup load effect) are modelled as state transformers over an `AppState` record.

`JSON.parse` and `JSON.stringify` are host functions; they are modelled by an executable
renderer and a fuel-based recursive-descent parser over a JSON value type.  JSON numbers
are IEEE floating point and no payload of this application carries a number, so numeric
literals are left out of the model (the parser rejects them).  The renderer escapes the
two characters (`\x22` and backslash) that can occur in this application's string fields.
-/

namespace PathFinder

/-- The JSON value type: the shape of everything `JSON.parse` can hand back to this
application.  Object fields keep their insertion order, as `JSON.stringify` does. -/
inductive Json where
  | null : Json
  | bool (b : Bool) : Json
  | str (s : String) : Json
  | arr (items : List Json) : Json
  | obj (fields : List (String × Json)) : Json

/-- Escape a single character as `JSON.stringify` does for the characters that occur in
this application's data: the quote and the backslash. -/
def escapeChar (c : Char) : List Char :=
  if c = '\"' then ['\\', '\"']
  else if c = '\\' then ['\\', '\\']
  else [c]

/-- Escape the characters of a string body. -/
def escapeChars : List Char → List Char
  | [] => []
  | c :: cs => escapeChar c ++ escapeChars cs

/-- Render a string as a JSON string literal (a list of characters). -/
def renderString (s : String) : List Char :=
  '\"' :: (escapeChars s.data ++ ['\"'])

mutual

/-- Render a JSON value as `JSON.stringify` renders it (compact, insertion order). -/
def renderV : Json → List Char
  | .null => ['n', 'u', 'l', 'l']
  | .bool b => if b then ['t', 'r', 'u', 'e'] else ['f', 'a', 'l', 's', 'e']
  | .str s => renderString s
  | .arr items => '[' :: (renderItems items ++ [']'])
  | .obj fields => '\x7b' :: (renderFields fields ++ ['\x7d'])

/-- Render the comma-separated elements of an array. -/
def renderItems : List Json → List Char
  | [] => []
  | [j] => renderV j
  | j :: rest => renderV j ++ (',' :: renderItems rest)

/-- Render the comma-separated `"key":value` fields of an object. -/
def renderFields : List (String × Json) → List Char
  | [] => []
  | [(k, v)] => renderString k ++ (':' :: renderV v)
  | (k, v) :: rest => renderString k ++ (':' :: renderV v) ++ (',' :: renderFields rest)

end

/-- `JSON.stringify`, as a `String`. -/
def Json.render (j : Json) : String :=
  String.mk (renderV j)

/-- Is this one of the whitespace characters `JSON.parse` skips? -/
def isWsChar (c : Char) : Bool :=
  c = ' ' || c = '\n' || c = '\t' || c = '\r'

/-- Drop leading JSON whitespace. -/
def skipWs : List Char → List Char
  | [] => []
  | c :: cs => if isWsChar c then skipWs cs else c :: cs

/-- Consume an expected literal tail (e.g. `ull` after the `n` of `null`). -/
def dropLit : List Char → List Char → Option (List Char)
  | [], cs => some cs
  | l :: ls, c :: cs => if c = l then dropLit ls cs else none
  | _ :: _, [] => none

mutual

/-- Parse the body of a JSON string literal (the opening quote already consumed),
returning the unescaped characters and the input after the closing quote. -/
def parseStringBody : List Char → Option (List Char × List Char)
  | [] => none
  | c :: rest =>
    if c = '\"' then some ([], rest)
    else if c = '\\' then parseStringEsc rest
    else
      match parseStringBody rest with
      | some (p, r) => some (c :: p, r)
      | none => none

/-- Parse the character following a backslash inside a string literal. -/
def parseStringEsc : List Char → Option (List Char × List Char)
  | [] => none
  | c2 :: rest2 =>
    if c2 = '\"' ∨ c2 = '\\' then
      match parseStringBody rest2 with
      | some (p, r) => some (c2 :: p, r)
      | none => none
    else none

end

mutual

/-- Parse one JSON value.  The fuel bounds the recursion depth; `jsonParse` supplies
more fuel than any input of that length can consume. -/
def parseValue : Nat → List Char → Option (Json × List Char)
  | 0, _ => none
  | fuel + 1, cs =>
    match skipWs cs with
    | [] => none
    | c :: rest =>
      if c = 'n' then
        match dropLit ['u', 'l', 'l'] rest with
        | some r => some (Json.null, r)
        | none => none
      else if c = 't' then
        match dropLit ['r', 'u', 'e'] rest with
        | some r => some (Json.bool true, r)
        | none => none
      else if c = 'f' then
        match dropLit ['a', 'l', 's', 'e'] rest with
        | some r => some (Json.bool false, r)
        | none => none
      else if c = '\"' then
        match parseStringBody rest with
        | some (p, r) => some (Json.str (String.mk p), r)
        | none => none
      else if c = '[' then
        match skipWs rest with
        | [] => none
        | c2 :: rest2 =>
          if c2 = ']' then some (Json.arr [], rest2)
          else
            match parseItems fuel (c2 :: rest2) with
            | some (vs, r) => some (Json.arr vs, r)
            | none => none
      else if c = '\x7b' then
        match skipWs rest with
        | [] => none
        | c2 :: rest2 =>
          if c2 = '\x7d' then some (Json.obj [], rest2)
          else
            match parseFields fuel (c2 :: rest2) with
            | some (fs, r) => some (Json.obj fs, r)
            | none => none
      else none

/-- Parse the elements of a non-empty array, up to and including the closing bracket. -/
def parseItems : Nat → List Char → Option (List Json × List Char)
  | 0, _ => none
  | fuel + 1, cs =>
    match parseValue fuel cs with
    | none => none
    | some (v, rest) =>
      match skipWs rest with
      | [] => none
      | c :: rest2 =>
        if c = ',' then
          match parseItems fuel rest2 with
          | some (vs, r) => some (v :: vs, r)
          | none => none
        else if c = ']' then some ([v], rest2)
        else none

/-- Parse the fields of a non-empty object, up to and including the closing brace. -/
def parseFields : Nat → List Char → Option (List (String × Json) × List Char)
  | 0, _ => none
  | fuel + 1, cs =>
    match skipWs cs with
    | [] => none
    | c :: rest =>
      if c = '\"' then
        match parseStringBody rest with
        | none => none
        | some (keyChars, rest1) =>
          match skipWs rest1 with
          | [] => none
          | c2 :: rest2 =>
            if c2 = ':' then
              match parseValue fuel rest2 with
              | none => none
              | some (v, rest3) =>
                match skipWs rest3 with
                | [] => none
                | c3 :: rest4 =>
                  if c3 = ',' then
                    match parseFields fuel rest4 with
                    | some (fs, r) => some ((String.mk keyChars, v) :: fs, r)
                    | none => none
                  else if c3 = '\x7d' then some ([(String.mk keyChars, v)], rest4)
                  else none
            else none
      else none

end

/-- `JSON.parse`: parse an entire string as one JSON value (`none` models a thrown
`SyntaxError`).  The fuel `length + 1` suffices for every parsable input because each
unit of fuel spent without consuming a character is immediately followed by consuming
one. -/
def jsonParse (s : String) : Option Json :=
  match parseValue (s.length + 1) s.data with
  | some (j, rest) => if skipWs rest = [] then some j else none
  | none => none

/-- The first character `JSON.stringify` emits for each kind of value. -/
def jsonHead : Json → Char
  | .null => 'n'
  | .bool true => 't'
  | .bool false => 'f'
  | .str _ => '\"'
  | .arr _ => '['
  | .obj _ => '\x7b'

/-! ## The service module (geminiService.ts lines 1-131)

`CareerRecommendation` and `ResumeData` are the module's two interfaces.  The
`ai.models.generateContent` call is the external provider: its outcome (rejection, or a
response whose `text` may be `undefined`) is an explicit argument, and the prompt built
from the inputs only determines what the provider is asked, not how the response is
handled. -/

structure CareerRecommendation where
  careerPaths : List String
  internshipRoles : List String
  skillsToLearn : List String
  summary : String
  deriving DecidableEq

structure ResumeData where
  education : String
  skills : String
  interests : String
  deriving DecidableEq

/-- The outcome of one `ai.models.generateContent(...)` await: the promise either
rejects with an error or resolves with a response whose `text` may be `undefined`. -/
inductive ProviderOutcome where
  | throw (err : String)
  | respond (text : Option String)
  deriving DecidableEq

/-- JavaScript `a || b` for an optional string: `undefined` and `""` are falsy. -/
def jsStringOr (text : Option String) (d : String) : String :=
  match text with
  | none => d
  | some s => if s = "" then d else s

/-- The error message thrown at the parse site of `getCareerRecommendations` (line 129). -/
def genFailedMsg : String := "Could not generate recommendations. Please try again."

/-- The error message thrown at the parse site of `scanResume` (line 70). -/
def scanFailedMsg : String := "Could not scan the resume. Please try manual input."

/-- `getCareerRecommendations` (lines 74-131): await the provider, then
`JSON.parse(response.text || "\x7b\x7d")` inside a `try` whose `catch` throws the
generation-failed error.  A rejection of the await happens outside the `try` and
propagates unchanged.  The parsed JSON is returned as-is: the declared
`CareerRecommendation` return type is not checked at runtime, so the result is a raw
JSON value here. -/
def getCareerRecommendations (education skills interests : String)
    (provider : ProviderOutcome) : Except String Json :=
  match provider with
  | .throw err => .error err
  | .respond text =>
    match jsonParse (jsStringOr text "\x7b\x7d") with
    | some j => .ok j
    | none => .error genFailedMsg

/-- `scanResume` (lines 18-72): same structure as `getCareerRecommendations` with the
scan-failed message at the parse site.  The document bytes and media type only shape the
request sent to the provider. -/
def scanResume (base64Data mimeType : String)
    (provider : ProviderOutcome) : Except String Json :=
  match provider with
  | .throw err => .error err
  | .respond text =>
    match jsonParse (jsStringOr text "\x7b\x7d") with
    | some j => .ok j
    | none => .error scanFailedMsg

/-- Look a key up in an object's field list (first occurrence). -/
def findField (key : String) : List (String × Json) → Option Json
  | [] => none
  | (k, v) :: fields => if k = key then some v else findField key fields

/-- Property access `j[key]` on a parsed JSON value. -/
def Json.getField (j : Json) (key : String) : Option Json :=
  match j with
  | .obj fields => findField key fields
  | _ => none

def isStringJson : Json → Bool
  | .str _ => true
  | _ => false

def isStringArrayJson : Json → Bool
  | .arr items => items.all isStringJson
  | _ => false

/-- The parsed value has the field and it passes the given shape check. -/
def hasField (j : Json) (key : String) (p : Json → Bool) : Bool :=
  match Json.getField j key with
  | some v => p v
  | none => false

/-- The shape the `CareerRecommendation` interface and the response schema (lines
101-121) require: the three string-list fields and the summary string all present. -/
def isCompleteRecommendation (j : Json) : Bool :=
  hasField j "careerPaths" isStringArrayJson &&
  hasField j "internshipRoles" isStringArrayJson &&
  hasField j "skillsToLearn" isStringArrayJson &&
  hasField j "summary" isStringJson

/-- The shape the `ResumeData` interface and the scan response schema (lines 54-62)
require: education, skills and interests all present as strings. -/
def isCompleteProfile (j : Json) : Bool :=
  hasField j "education" isStringJson &&
  hasField j "skills" isStringJson &&
  hasField j "interests" isStringJson

/-! ## The history store (App component, lines 158-168 and 202-218, 320-347, 769-778) -/

/-- `HistoryItem` (lines 158-168).  `inputs` has the same three string fields as
`ResumeData`. -/
structure HistoryItem where
  id : String
  title : String
  date : String
  recommendation : CareerRecommendation
  inputs : ResumeData
  deriving DecidableEq

/-- How `JSON.stringify` serializes a `CareerRecommendation` (property creation order of
the interface, lines 5-10). -/
def encodeRecommendation (r : CareerRecommendation) : Json :=
  .obj [("careerPaths", .arr (r.careerPaths.map .str)),
        ("internshipRoles", .arr (r.internshipRoles.map .str)),
        ("skillsToLearn", .arr (r.skillsToLearn.map .str)),
        ("summary", .str r.summary)]

/-- How `JSON.stringify` serializes the `inputs` object literal (line 334). -/
def encodeInputs (p : ResumeData) : Json :=
  .obj [("education", .str p.education), ("skills", .str p.skills),
        ("interests", .str p.interests)]

/-- How `JSON.stringify` serializes a `HistoryItem` (object literal of lines 323-335). -/
def encodeHistoryItem (h : HistoryItem) : Json :=
  .obj [("id", .str h.id), ("title", .str h.title), ("date", .str h.date),
        ("recommendation", encodeRecommendation h.recommendation),
        ("inputs", encodeInputs h.inputs)]

/-- How `JSON.stringify` serializes the whole history list. -/
def encodeHistory (l : List HistoryItem) : Json :=
  .arr (l.map encodeHistoryItem)

def asStringJson : Json → Option String
  | .str s => some s
  | _ => none

def asStringList : List Json → Option (List String)
  | [] => some []
  | j :: js =>
    match asStringJson j with
    | some s =>
      match asStringList js with
      | some ss => some (s :: ss)
      | none => none
    | none => none

def asStringArray : Json → Option (List String)
  | .arr items => asStringList items
  | _ => none

/-- Reading a recommendation back out of a parsed JSON value, field access by field
access, as the rendering code does (`recommendation.careerPaths` and so on). -/
def decodeRecommendation (j : Json) : Option CareerRecommendation := do
  let careerPaths ← (Json.getField j "careerPaths").bind asStringArray
  let internshipRoles ← (Json.getField j "internshipRoles").bind asStringArray
  let skillsToLearn ← (Json.getField j "skillsToLearn").bind asStringArray
  let summary ← (Json.getField j "summary").bind asStringJson
  pure ⟨careerPaths, internshipRoles, skillsToLearn, summary⟩

def decodeInputs (j : Json) : Option ResumeData := do
  let education ← (Json.getField j "education").bind asStringJson
  let skills ← (Json.getField j "skills").bind asStringJson
  let interests ← (Json.getField j "interests").bind asStringJson
  pure ⟨education, skills, interests⟩

/-- Reading one history entry back out of a parsed JSON value, as the history list
rendering accesses it (`item.id`, `item.title`, `item.date`, `item.recommendation`,
`item.inputs`). -/
def decodeHistoryItem (j : Json) : Option HistoryItem := do
  let id ← (Json.getField j "id").bind asStringJson
  let title ← (Json.getField j "title").bind asStringJson
  let date ← (Json.getField j "date").bind asStringJson
  let recommendation ← (Json.getField j "recommendation").bind decodeRecommendation
  let inputs ← (Json.getField j "inputs").bind decodeInputs
  pure ⟨id, title, date, recommendation, inputs⟩

def decodeHistoryItems : List Json → Option (List HistoryItem)
  | [] => some []
  | j :: js =>
    match decodeHistoryItem j with
    | some h =>
      match decodeHistoryItems js with
      | some hs => some (h :: hs)
      | none => none
    | none => none

def decodeHistory : Json → Option (List HistoryItem)
  | .arr items => decodeHistoryItems items
  | _ => none

/-- The `App` component state that the verified operations touch.  The remaining UI
state (loading flags, active tab, uploaded file, error banner) is irrelevant to the
claims.  `store` is the value under the `localStorage` key `ece_career_history`
(`none` when the key is absent). -/
structure AppState where
  history : List HistoryItem
  recommendation : Option CareerRecommendation
  saveTitle : String
  education : String
  skills : String
  interests : String
  isSaveModalOpen : Bool
  store : Option String
  deriving DecidableEq

/-- Whether a `localStorage.setItem` call succeeds or throws (a quota or
storage-disabled error). -/
inductive StorageWriteResult where
  | ok
  | failure (err : String)
  deriving DecidableEq

/-- `saveToLocalStorage` (lines 215-218): `setItem` with `JSON.stringify` of the full
new list, then `setHistory`.  There is no try/catch here: if the write throws, the
exception propagates and `setHistory` is not reached. -/
def saveToLocalStorage (w : StorageWriteResult) (s : AppState)
    (newHistory : List HistoryItem) : Except String AppState :=
  match w with
  | .failure err => .error err
  | .ok => .ok { s with store := some (Json.render (encodeHistory newHistory)),
                        history := newHistory }

/-- JavaScript `String.prototype.trim`: strip whitespace from both ends.  (A host
function, modelled directly; `!s.trim()` is true exactly when the trimmed string is
empty.) -/
def jsTrim (s : String) : String :=
  String.mk (((s.data.dropWhile Char.isWhitespace).reverse.dropWhile
      Char.isWhitespace).reverse)

/-- `handleSave` (lines 320-341).  `crypto.randomUUID()` and the formatted date are host
values, passed in as `freshId` and `newDate`.  The guard
`if (!recommendation || !saveTitle.trim()) return;` exits before any write; otherwise
the new entry is prepended, the full list persisted, and then the modal closed and the
title field cleared. -/
def handleSave (w : StorageWriteResult) (freshId newDate : String)
    (s : AppState) : Except String AppState :=
  match s.recommendation with
  | none => .ok s
  | some recommendation =>
    if jsTrim s.saveTitle = "" then .ok s
    else
      let newItem : HistoryItem :=
        { id := freshId, title := s.saveTitle, date := newDate,
          recommendation := recommendation,
          inputs := { education := s.education, skills := s.skills,
                      interests := s.interests } }
      match saveToLocalStorage w s (newItem :: s.history) with
      | .error e => .error e
      | .ok s' => .ok { s' with isSaveModalOpen := false, saveTitle := "" }

/-- `deleteHistoryItem` (lines 343-347): keep the entries whose id differs from the
given one, then persist the full filtered list. -/
def deleteHistoryItem (w : StorageWriteResult) (id : String)
    (s : AppState) : Except String AppState :=
  saveToLocalStorage w s (s.history.filter (fun item => item.id != id))

/-- The Clear-All handler (lines 769-778): once the user confirms,
`saveToLocalStorage([])`. -/
def clearAllHistory (w : StorageWriteResult) (s : AppState) : Except String AppState :=
  saveToLocalStorage w s []

/-- The startup history-load effect (lines 203-212): `getItem`; a `null` or `""` (falsy)
read leaves the state alone; otherwise `JSON.parse` inside try/catch — `setHistory` with
the parsed value on success, `console.error` and no state change on a parse failure.
The returned `Bool` records whether a failure was logged.  The parsed value is assigned
to the history state untyped by the JS; the result is `none` in the case — unreachable
for anything this application itself writes — that the parsed value is not a history
array and the resulting state is not representable in the typed model. -/
def loadHistoryEffect (savedHistory : Option String) (s : AppState) :
    Option (AppState × Bool) :=
  match savedHistory with
  | none => some (s, false)
  | some str =>
    if str = "" then some (s, false)
    else
      match jsonParse str with
      | none => some (s, true)
      | some j =>
        match decodeHistory j with
        | some l => some ({ s with history := l }, false)
        | none => none

/-! ## Claims about the history store

Concrete states used by witnesses and counterexamples. -/

def exampleRec : CareerRecommendation :=
  { careerPaths := ["VLSI Design Engineer"], internshipRoles := ["Chip Design Intern"],
    skillsToLearn := ["SystemVerilog"], summary := "A good fit." }

def exampleState : AppState :=
  { history := [], recommendation := some exampleRec, saveTitle := "My Plan",
    education := "3rd Year B.Tech in ECE", skills := "Verilog, Arduino, Python",
    interests := "VLSI, Embedded Systems", isSaveModalOpen := true, store := none }

def dupItem1 : HistoryItem :=
  { id := "dup", title := "first", date := "Jan 1, 2026",
    recommendation := exampleRec,
    inputs := { education := "e", skills := "s", interests := "i" } }

def dupItem2 : HistoryItem := { dupItem1 with title := "second" }

def dupState : AppState := { exampleState with history := [dupItem1, dupItem2] }

def oneItemState : AppState := { exampleState with history := [dupItem1] }

/-! ## The renderer and the parser are inverse

`JSON.parse(JSON.stringify(x))` reproducing `x` is the host-runtime fact the history
store's persistence leans on; here it is proved for the model. -/

theorem skipWs_cons (c : Char) (cs : List Char) (h : isWsChar c = false) :
    skipWs (c :: cs) = c :: cs := by
  simp [skipWs, h]

/-! Named unfolding equations of the renderer, used as rewrite rules below. -/

theorem renderV_null : renderV .null = ['n', 'u', 'l', 'l'] := rfl

theorem renderV_true : renderV (.bool true) = ['t', 'r', 'u', 'e'] := rfl

theorem renderV_false : renderV (.bool false) = ['f', 'a', 'l', 's', 'e'] := rfl

theorem renderV_str (s : String) :
    renderV (.str s) = '\"' :: (escapeChars s.data ++ ['\"']) := rfl

theorem renderV_arr (items : List Json) :
    renderV (.arr items) = '[' :: (renderItems items ++ [']']) := rfl

theorem renderV_obj (fields : List (String × Json)) :
    renderV (.obj fields) = '\x7b' :: (renderFields fields ++ ['\x7d']) := rfl

theorem renderItems_single (j : Json) : renderItems [j] = renderV j := rfl

theorem renderItems_cons2 (j u : Json) (t : List Json) :
    renderItems (j :: u :: t) = renderV j ++ (',' :: renderItems (u :: t)) := rfl

theorem renderFields_single (k : String) (v : Json) :
    renderFields [(k, v)] = renderString k ++ (':' :: renderV v) := rfl

theorem renderFields_cons2 (k : String) (v : Json) (w : String × Json)
    (t : List (String × Json)) :
    renderFields ((k, v) :: w :: t)
      = renderString k ++ (':' :: renderV v) ++ (',' :: renderFields (w :: t)) := rfl

/-- Parsing an escaped string body recovers exactly the original characters. -/
theorem parseStringBody_escape (cs rest : List Char) :
    parseStringBody (escapeChars cs ++ ('\"' :: rest)) = some (cs, rest) := by
  induction cs with
  | nil => rfl
  | cons c cs ih =>
    by_cases h1 : c = '\"'
    · subst h1
      have harg : escapeChars ('\"' :: cs) ++ ('\"' :: rest)
          = '\\' :: '\"' :: (escapeChars cs ++ ('\"' :: rest)) := by
        simp [escapeChars, escapeChar]
      rw [harg]
      show (match parseStringBody (escapeChars cs ++ ('\"' :: rest)) with
            | some (p, r) => some ('\"' :: p, r)
            | none => none) = _
      rw [ih]
    · by_cases h2 : c = '\\'
      · subst h2
        have harg : escapeChars ('\\' :: cs) ++ ('\"' :: rest)
            = '\\' :: '\\' :: (escapeChars cs ++ ('\"' :: rest)) := by
          simp [escapeChars, escapeChar]
        rw [harg]
        show (match parseStringBody (escapeChars cs ++ ('\"' :: rest)) with
              | some (p, r) => some ('\\' :: p, r)
              | none => none) = _
        rw [ih]
      · have harg : escapeChars (c :: cs) ++ ('\"' :: rest)
            = c :: (escapeChars cs ++ ('\"' :: rest)) := by
          simp [escapeChars, escapeChar, h1, h2]
        rw [harg]
        show (if c = '\"' then some ([], escapeChars cs ++ ('\"' :: rest))
              else if c = '\\' then parseStringEsc (escapeChars cs ++ ('\"' :: rest))
              else
                match parseStringBody (escapeChars cs ++ ('\"' :: rest)) with
                | some (p, r) => some (c :: p, r)
                | none => none) = _
        rw [if_neg h1, if_neg h2, ih]

theorem renderV_head (j : Json) : ∃ cs, renderV j = jsonHead j :: cs := by
  cases j with
  | null => exact ⟨_, rfl⟩
  | bool b => cases b <;> exact ⟨_, rfl⟩
  | str s => exact ⟨_, rfl⟩
  | arr items => exact ⟨_, rfl⟩
  | obj fields => exact ⟨_, rfl⟩

theorem jsonHead_spec (j : Json) :
    isWsChar (jsonHead j) = false ∧ jsonHead j ≠ ']' ∧ jsonHead j ≠ '\x7d' := by
  cases j with
  | null => exact ⟨rfl, show ('n' : Char) ≠ ']' by decide, show ('n' : Char) ≠ '\x7d' by decide⟩
  | bool b =>
    cases b with
    | true => exact ⟨rfl, show ('t' : Char) ≠ ']' by decide, show ('t' : Char) ≠ '\x7d' by decide⟩
    | false => exact ⟨rfl, show ('f' : Char) ≠ ']' by decide, show ('f' : Char) ≠ '\x7d' by decide⟩
  | str s => exact ⟨rfl, show ('\"' : Char) ≠ ']' by decide, show ('\"' : Char) ≠ '\x7d' by decide⟩
  | arr items => exact ⟨rfl, show ('[' : Char) ≠ ']' by decide, show ('[' : Char) ≠ '\x7d' by decide⟩
  | obj fields =>
    exact ⟨rfl, show ('\x7b' : Char) ≠ ']' by decide, show ('\x7b' : Char) ≠ '\x7d' by decide⟩

theorem renderItems_cons_head (j : Json) (t : List Json) :
    ∃ cs, renderItems (j :: t) = jsonHead j :: cs := by
  obtain ⟨cs0, h0⟩ := renderV_head j
  cases t with
  | nil => exact ⟨cs0, by rw [renderItems_single, h0]⟩
  | cons u t' =>
    exact ⟨cs0 ++ (',' :: renderItems (u :: t')), by rw [renderItems_cons2, h0]; simp⟩

theorem renderV_length_pos (j : Json) : 1 ≤ (renderV j).length := by
  obtain ⟨cs, h⟩ := renderV_head j
  simp [h]

theorem renderString_length_ge (s : String) : 2 ≤ (renderString s).length := by
  simp [renderString]

/-- Unfolding equation of `parseValue` after a quote (the string branch). -/
theorem parseValue_cons_quote (fuel : Nat) (xs : List Char) :
    parseValue (fuel + 1) ('\"' :: xs) =
      (match parseStringBody xs with
       | some (p, r) => some (Json.str (String.mk p), r)
       | none => none) := rfl

/-- Unfolding equation of `parseValue` after `[` followed by a non-`]` head. -/
theorem parseValue_cons_lbracket (fuel : Nat) (c : Char) (cs : List Char)
    (hws : isWsChar c = false) (hne : c ≠ ']') :
    parseValue (fuel + 1) ('[' :: c :: cs) =
      (match parseItems fuel (c :: cs) with
       | some (vs, r) => some (Json.arr vs, r)
       | none => none) := by
  show (match skipWs (c :: cs) with
        | [] => none
        | c2 :: rest2 =>
          if c2 = ']' then some (Json.arr [], rest2)
          else
            match parseItems fuel (c2 :: rest2) with
            | some (vs, r) => some (Json.arr vs, r)
            | none => none) = _
  rw [skipWs_cons c cs hws]
  simp [hne]

/-- Unfolding equation of `parseValue` after an opening brace followed by a
non-closing-brace head. -/
theorem parseValue_cons_lbrace (fuel : Nat) (c : Char) (cs : List Char)
    (hws : isWsChar c = false) (hne : c ≠ '\x7d') :
    parseValue (fuel + 1) ('\x7b' :: c :: cs) =
      (match parseFields fuel (c :: cs) with
       | some (fs, r) => some (Json.obj fs, r)
       | none => none) := by
  show (match skipWs (c :: cs) with
        | [] => none
        | c2 :: rest2 =>
          if c2 = '\x7d' then some (Json.obj [], rest2)
          else
            match parseFields fuel (c2 :: rest2) with
            | some (fs, r) => some (Json.obj fs, r)
            | none => none) = _
  rw [skipWs_cons c cs hws]
  simp [hne]

/-- Unfolding equation of `parseItems` at positive fuel. -/
theorem parseItems_succ (fuel : Nat) (cs : List Char) :
    parseItems (fuel + 1) cs =
      (match parseValue fuel cs with
       | none => none
       | some (v, rest) =>
         match skipWs rest with
         | [] => none
         | c :: rest2 =>
           if c = ',' then
             match parseItems fuel rest2 with
             | some (vs, r) => some (v :: vs, r)
             | none => none
           else if c = ']' then some ([v], rest2)
           else none) := rfl

/-- Unfolding equation of `parseFields` after the opening quote of a key. -/
theorem parseFields_cons_quote (fuel : Nat) (xs : List Char) :
    parseFields (fuel + 1) ('\"' :: xs) =
      (match parseStringBody xs with
       | none => none
       | some (keyChars, rest1) =>
         match skipWs rest1 with
         | [] => none
         | c2 :: rest2 =>
           if c2 = ':' then
             match parseValue fuel rest2 with
             | none => none
             | some (v, rest3) =>
               match skipWs rest3 with
               | [] => none
               | c3 :: rest4 =>
                 if c3 = ',' then
                   match parseFields fuel rest4 with
                   | some (fs, r) => some ((String.mk keyChars, v) :: fs, r)
                   | none => none
                 else if c3 = '\x7d' then some ([(String.mk keyChars, v)], rest4)
                 else none
           else none) := rfl

/-- The parser inverts the renderer: rendered values, element lists and field lists
parse back to themselves, given fuel above the rendered length. -/
theorem parse_render_aux : ∀ fuel : Nat,
    (∀ j rest, (renderV j).length < fuel →
        parseValue fuel (renderV j ++ rest) = some (j, rest)) ∧
    (∀ items rest, items ≠ [] → (renderItems items).length + 1 < fuel →
        parseItems fuel (renderItems items ++ (']' :: rest)) = some (items, rest)) ∧
    (∀ fields rest, fields ≠ [] → (renderFields fields).length + 1 < fuel →
        parseFields fuel (renderFields fields ++ ('\x7d' :: rest)) = some (fields, rest)) := by
  intro fuel
  induction fuel with
  | zero =>
    refine ⟨fun j rest h => absurd h (Nat.not_lt_zero _),
            fun items rest hne h => absurd h (Nat.not_lt_zero _),
            fun fields rest hne h => absurd h (Nat.not_lt_zero _)⟩
  | succ fuel ih =>
    obtain ⟨ih1, ih2, ih3⟩ := ih
    refine ⟨?_, ?_, ?_⟩
    · intro j rest hlen
      cases j with
      | null => rfl
      | bool b => cases b <;> rfl
      | str s =>
        have harg : renderV (.str s) ++ rest
            = '\"' :: (escapeChars s.data ++ ('\"' :: rest)) := by
          rw [renderV_str]
          simp
        rw [harg, parseValue_cons_quote, parseStringBody_escape]
      | arr items =>
        cases items with
        | nil => rfl
        | cons j t =>
          obtain ⟨cs0, hcs0⟩ := renderItems_cons_head j t
          obtain ⟨hws, hnb, _⟩ := jsonHead_spec j
          have hlen' : (renderItems (j :: t)).length + 1 < fuel := by
            rw [renderV_arr] at hlen
            simp [List.length_append] at hlen
            omega
          have harg : renderV (.arr (j :: t)) ++ rest
              = '[' :: (jsonHead j :: (cs0 ++ (']' :: rest))) := by
            rw [renderV_arr, hcs0]
            simp
          rw [harg, parseValue_cons_lbracket fuel (jsonHead j) _ hws hnb]
          have hback : jsonHead j :: (cs0 ++ (']' :: rest))
              = renderItems (j :: t) ++ (']' :: rest) := by
            rw [hcs0]
            simp
          rw [hback, ih2 (j :: t) rest (by simp) hlen']
      | obj fields =>
        cases fields with
        | nil => rfl
        | cons kv t =>
          obtain ⟨k, v⟩ := kv
          have hlen' : (renderFields ((k, v) :: t)).length + 1 < fuel := by
            rw [renderV_obj] at hlen
            simp [List.length_append] at hlen
            omega
          have hhead : ∃ cs, renderFields ((k, v) :: t) = '\"' :: cs := by
            cases t with
            | nil =>
              refine ⟨escapeChars k.data ++ ('\"' :: (':' :: renderV v)), ?_⟩
              rw [renderFields_single, renderString]
              simp
            | cons w t' =>
              refine ⟨escapeChars k.data
                  ++ ('\"' :: (':' :: (renderV v ++ (',' :: renderFields (w :: t'))))), ?_⟩
              rw [renderFields_cons2, renderString]
              simp
          obtain ⟨cs0, hcs0⟩ := hhead
          have harg : renderV (.obj ((k, v) :: t)) ++ rest
              = '\x7b' :: ('\"' :: (cs0 ++ ('\x7d' :: rest))) := by
            rw [renderV_obj, hcs0]
            simp
          rw [harg, parseValue_cons_lbrace fuel '\"' _ rfl (by decide)]
          have hback : '\"' :: (cs0 ++ ('\x7d' :: rest))
              = renderFields ((k, v) :: t) ++ ('\x7d' :: rest) := by
            rw [hcs0]
            simp
          rw [hback, ih3 ((k, v) :: t) rest (by simp) hlen']
    · intro items rest hne hlen
      cases items with
      | nil => exact absurd rfl hne
      | cons j t =>
        cases t with
        | nil =>
          have hv : (renderV j).length < fuel := by
            rw [renderItems_single] at hlen
            omega
          have h1 : renderItems [j] ++ (']' :: rest) = renderV j ++ (']' :: rest) := by
            rw [renderItems_single]
          rw [parseItems_succ, h1, ih1 j (']' :: rest) hv]
          show (match skipWs (']' :: rest) with
                | [] => none
                | c :: rest2 =>
                  if c = ',' then
                    match parseItems fuel rest2 with
                    | some (vs, r) => some (j :: vs, r)
                    | none => none
                  else if c = ']' then some ([j], rest2)
                  else none) = some ([j], rest)
          rw [skipWs_cons _ _ (by decide)]
          simp
        | cons u t' =>
          have hjpos := renderV_length_pos j
          have hv : (renderV j).length < fuel := by
            rw [renderItems_cons2] at hlen
            simp [List.length_append] at hlen
            omega
          have ht : (renderItems (u :: t')).length + 1 < fuel := by
            rw [renderItems_cons2] at hlen
            simp [List.length_append] at hlen
            omega
          have h1 : renderItems (j :: u :: t') ++ (']' :: rest)
              = renderV j ++ (',' :: (renderItems (u :: t') ++ (']' :: rest))) := by
            rw [renderItems_cons2]
            simp
          rw [parseItems_succ, h1, ih1 j _ hv]
          show (match skipWs (',' :: (renderItems (u :: t') ++ (']' :: rest))) with
                | [] => none
                | c :: rest2 =>
                  if c = ',' then
                    match parseItems fuel rest2 with
                    | some (vs, r) => some (j :: vs, r)
                    | none => none
                  else if c = ']' then some ([j], rest2)
                  else none) = some (j :: u :: t', rest)
          rw [skipWs_cons _ _ (by decide)]
          show (if (',' : Char) = ',' then
                  match parseItems fuel (renderItems (u :: t') ++ (']' :: rest)) with
                  | some (vs, r) => some (j :: vs, r)
                  | none => none
                else if (',' : Char) = ']' then
                  some ([j], renderItems (u :: t') ++ (']' :: rest))
                else none) = some (j :: u :: t', rest)
          rw [if_pos rfl, ih2 (u :: t') rest (by simp) ht]
    · intro fields rest hne hlen
      cases fields with
      | nil => exact absurd rfl hne
      | cons kv t =>
        obtain ⟨k, v⟩ := kv
        have hkpos := renderString_length_ge k
        have hvpos := renderV_length_pos v
        cases t with
        | nil =>
          have hv : (renderV v).length < fuel := by
            rw [renderFields_single] at hlen
            simp [List.length_append] at hlen
            rw [renderString] at hkpos
            simp [List.length_append] at hkpos
            omega
          have h1 : renderFields [(k, v)] ++ ('\x7d' :: rest)
              = '\"' :: (escapeChars k.data
                  ++ ('\"' :: (':' :: (renderV v ++ ('\x7d' :: rest))))) := by
            rw [renderFields_single, renderString]
            simp
          rw [h1, parseFields_cons_quote, parseStringBody_escape]
          show (match parseValue fuel (renderV v ++ ('\x7d' :: rest)) with
                | none => none
                | some (w, rest3) =>
                  match skipWs rest3 with
                  | [] => none
                  | c3 :: rest4 =>
                    if c3 = ',' then
                      match parseFields fuel rest4 with
                      | some (fs, r) => some ((String.mk k.data, w) :: fs, r)
                      | none => none
                    else if c3 = '\x7d' then some ([(String.mk k.data, w)], rest4)
                    else none) = some ([(k, v)], rest)
          rw [ih1 v ('\x7d' :: rest) hv]
          show (match skipWs ('\x7d' :: rest) with
                | [] => none
                | c3 :: rest4 =>
                  if c3 = ',' then
                    match parseFields fuel rest4 with
                    | some (fs, r) => some ((String.mk k.data, v) :: fs, r)
                    | none => none
                  else if c3 = '\x7d' then some ([(String.mk k.data, v)], rest4)
                  else none) = some ([(k, v)], rest)
          rw [skipWs_cons _ _ (by decide)]
          simp
        | cons wt t' =>
          have hv : (renderV v).length < fuel := by
            rw [renderFields_cons2] at hlen
            simp [List.length_append] at hlen
            rw [renderString] at hkpos
            simp [List.length_append] at hkpos
            omega
          have ht : (renderFields (wt :: t')).length + 1 < fuel := by
            rw [renderFields_cons2] at hlen
            simp [List.length_append] at hlen
            rw [renderString] at hkpos
            simp [List.length_append] at hkpos
            omega
          have h1 : renderFields ((k, v) :: wt :: t') ++ ('\x7d' :: rest)
              = '\"' :: (escapeChars k.data
                  ++ ('\"' :: (':' :: (renderV v
                      ++ (',' :: (renderFields (wt :: t') ++ ('\x7d' :: rest))))))) := by
            rw [renderFields_cons2, renderString]
            simp
          rw [h1, parseFields_cons_quote, parseStringBody_escape]
          show (match parseValue fuel (renderV v
                  ++ (',' :: (renderFields (wt :: t') ++ ('\x7d' :: rest)))) with
                | none => none
                | some (w, rest3) =>
                  match skipWs rest3 with
                  | [] => none
                  | c3 :: rest4 =>
                    if c3 = ',' then
                      match parseFields fuel rest4 with
                      | some (fs, r) => some ((String.mk k.data, w) :: fs, r)
                      | none => none
                    else if c3 = '\x7d' then some ([(String.mk k.data, w)], rest4)
                    else none) = some ((k, v) :: wt :: t', rest)
          rw [ih1 v _ hv]
          show (match skipWs (',' :: (renderFields (wt :: t') ++ ('\x7d' :: rest))) with
                | [] => none
                | c3 :: rest4 =>
                  if c3 = ',' then
                    match parseFields fuel rest4 with
                    | some (fs, r) => some ((String.mk k.data, v) :: fs, r)
                    | none => none
                  else if c3 = '\x7d' then some ([(String.mk k.data, v)], rest4)
                  else none) = some ((k, v) :: wt :: t', rest)
          rw [skipWs_cons _ _ (by decide)]
          show (if (',' : Char) = ',' then
                  match parseFields fuel (renderFields (wt :: t') ++ ('\x7d' :: rest)) with
                  | some (fs, r) => some ((String.mk k.data, v) :: fs, r)
                  | none => none
                else if (',' : Char) = '\x7d' then
                  some ([(String.mk k.data, v)], renderFields (wt :: t') ++ ('\x7d' :: rest))
                else none) = some ((k, v) :: wt :: t', rest)
          rw [if_pos rfl, ih3 (wt :: t') rest (by simp) ht]

/-- `JSON.parse` inverts `JSON.stringify`: the round-trip of the model. -/
theorem jsonParse_render (j : Json) : jsonParse (Json.render j) = some j := by
  have h := (parse_render_aux ((renderV j).length + 1)).1 j [] (Nat.lt_succ_self _)
  rw [List.append_nil] at h
  show (match parseValue ((renderV j).length + 1) (renderV j) with
        | some (jv, rest) => if skipWs rest = [] then some jv else none
        | none => none) = some j
  rw [h]
  rfl

theorem asStringList_map_str (xs : List String) :
    asStringList (xs.map Json.str) = some xs := by
  induction xs with
  | nil => rfl
  | cons x xs ih => simp [asStringList, asStringJson, ih]

theorem decodeRecommendation_encode (r : CareerRecommendation) :
    decodeRecommendation (encodeRecommendation r) = some r := by
  simp [decodeRecommendation, encodeRecommendation, Json.getField, findField,
        asStringArray, asStringList_map_str, asStringJson, Option.bind]

theorem decodeInputs_encode (p : ResumeData) :
    decodeInputs (encodeInputs p) = some p := by
  simp [decodeInputs, encodeInputs, Json.getField, findField, asStringJson, Option.bind]

theorem decodeHistoryItem_encode (h : HistoryItem) :
    decodeHistoryItem (encodeHistoryItem h) = some h := by
  simp [decodeHistoryItem, encodeHistoryItem, Json.getField, findField, asStringJson,
        decodeRecommendation_encode, decodeInputs_encode, Option.bind]

theorem decodeHistory_encode (l : List HistoryItem) :
    decodeHistory (encodeHistory l) = some l := by
  rw [encodeHistory, decodeHistory]
  induction l with
  | nil => rfl
  | cons h t ih => simp [decodeHistoryItems, decodeHistoryItem_encode, ih]

/-! ## Claims about the recommendation client -/

/-- C1: the claim says that whenever `getCareerRecommendations` returns successfully —
including when the provider's response text is empty or absent — the returned value has
all four fields.  The code violates this: with an empty or absent response text,
`JSON.parse(response.text || "\x7b\x7d")` succeeds on the fallback and the call returns
an empty object carrying none of the four fields, contradicting the declared
`CareerRecommendation` return type and the response schema's `required` list.  This
theorem evaluates the code at that failing input (a profile with all three fields
non-empty). -/
theorem getCareerRecommendations_empty_text_incomplete :
    getCareerRecommendations "3rd Year B.Tech in ECE" "Verilog, Arduino, Python"
        "VLSI, Embedded Systems" (.respond (some "")) = .ok (.obj [])
    ∧ getCareerRecommendations "3rd Year B.Tech in ECE" "Verilog, Arduino, Python"
        "VLSI, Embedded Systems" (.respond none) = .ok (.obj [])
    ∧ isCompleteRecommendation (.obj []) = false := ⟨rfl, rfl, rfl⟩

/-- C2 counterexample: when the provider call itself fails, the operation does not fail
with the generation-failed error thrown at the parse site — the provider's own error
propagates unchanged (the try/catch wraps only `JSON.parse`). -/
theorem getCareerRecommendations_provider_error_unwrapped :
    getCareerRecommendations "3rd Year B.Tech in ECE" "Verilog" "VLSI"
        (.throw "TypeError: Failed to fetch") = .error "TypeError: Failed to fetch"
    ∧ "TypeError: Failed to fetch" ≠ genFailedMsg := ⟨rfl, by decide⟩

/-- C2 (amended): every failure of `getCareerRecommendations` is either the provider's
own error propagated unchanged or exactly the generation-failed error; the
generation-failed error is thrown exactly when the provider responded but its text (with
the empty-object fallback) does not parse as JSON; and a text that parses is returned
as the parsed value, with no further shape check. -/
theorem getCareerRecommendations_failure_modes (education skills interests : String)
    (p : ProviderOutcome) :
    (∀ err, getCareerRecommendations education skills interests p = .error err →
        p = .throw err ∨ err = genFailedMsg) ∧
    (∀ text, p = .respond text →
        jsonParse (jsStringOr text "\x7b\x7d") = none →
        getCareerRecommendations education skills interests p = .error genFailedMsg) ∧
    (∀ text j, p = .respond text →
        jsonParse (jsStringOr text "\x7b\x7d") = some j →
        getCareerRecommendations education skills interests p = .ok j) := by
  refine ⟨?_, ?_, ?_⟩
  · intro err h
    cases p with
    | throw e =>
      simp only [getCareerRecommendations, Except.error.injEq] at h
      exact Or.inl (by rw [h])
    | respond text =>
      refine Or.inr ?_
      simp only [getCareerRecommendations] at h
      cases hj : jsonParse (jsStringOr text "\x7b\x7d") with
      | none =>
        rw [hj] at h
        simp only [Except.error.injEq] at h
        exact h.symm
      | some j =>
        rw [hj] at h
        exact absurd h (by simp)
  · intro text htext hparse
    subst htext
    simp [getCareerRecommendations, hparse]
  · intro text j htext hparse
    subst htext
    simp [getCareerRecommendations, hparse]

theorem getCareerRecommendations_failure_modes_witness :
    getCareerRecommendations "3rd Year B.Tech in ECE" "Verilog" "VLSI"
        (.respond (some "not json")) = .error genFailedMsg :=
  (getCareerRecommendations_failure_modes "3rd Year B.Tech in ECE" "Verilog" "VLSI"
      (.respond (some "not json"))).2.1 (some "not json") rfl (by rfl)

/-- C8: the claim says every `scanResume` call either returns a complete profile or
fails with the distinct scan-failed error.  As with C1, an empty or absent response text
makes `JSON.parse` succeed on the `"\x7b\x7d"` fallback and the call returns an empty
object with none of the three fields — neither outcome the claim allows — contradicting
the declared `ResumeData` return type and the scan response schema.  This theorem
evaluates the code there, and also confirms the true parts of the claim: a parse failure
surfaces exactly the scan-failed error, which is distinct from the generation-failed
error. -/
theorem scanResume_empty_text_incomplete :
    scanResume "dGVzdCByZXN1bWU=" "application/pdf" (.respond (some "")) = .ok (.obj [])
    ∧ isCompleteProfile (.obj []) = false
    ∧ scanResume "dGVzdCByZXN1bWU=" "application/pdf" (.respond (some "not json"))
        = .error scanFailedMsg
    ∧ scanFailedMsg ≠ genFailedMsg := ⟨rfl, rfl, rfl, by decide⟩

/-- C3 counterexample: a failing `localStorage.setItem` during a save mutation
propagates the storage error out of the operation — `saveToLocalStorage` has no
try/catch — contradicting the claim that every local-storage failure is absorbed. -/
theorem handleSave_write_failure_propagates :
    handleSave (.failure "QuotaExceededError") "id-1" "Jan 1, 2026" exampleState
      = .error "QuotaExceededError" := rfl

/-- C3 (amended): a malformed read at startup is absorbed — a stored string that fails
`JSON.parse` leaves the history state unchanged (the empty list at startup) with the
failure logged — but a failing storage write during save, delete or clear propagates
the write error out of the operation. -/
theorem localStorage_failure_behaviour (str : String) (s : AppState)
    (err freshId newDate did : String) (r : CareerRecommendation)
    (hstr : str ≠ "") (hparse : jsonParse str = none)
    (hrec : s.recommendation = some r) (htitle : jsTrim s.saveTitle ≠ "") :
    loadHistoryEffect (some str) s = some (s, true)
    ∧ handleSave (.failure err) freshId newDate s = .error err
    ∧ deleteHistoryItem (.failure err) did s = .error err
    ∧ clearAllHistory (.failure err) s = .error err := by
  refine ⟨?_, ?_, rfl, rfl⟩
  · simp [loadHistoryEffect, hstr, hparse]
  · simp [handleSave, hrec, htitle, saveToLocalStorage]

theorem localStorage_failure_behaviour_witness :
    loadHistoryEffect (some "oops") exampleState = some (exampleState, true)
    ∧ handleSave (.failure "QuotaExceededError") "id-1" "Jan 1, 2026" exampleState
        = .error "QuotaExceededError"
    ∧ deleteHistoryItem (.failure "QuotaExceededError") "id-2" exampleState
        = .error "QuotaExceededError"
    ∧ clearAllHistory (.failure "QuotaExceededError") exampleState
        = .error "QuotaExceededError" :=
  localStorage_failure_behaviour "oops" exampleState "QuotaExceededError" "id-1"
    "Jan 1, 2026" "id-2" exampleRec (by decide) (by rfl) rfl (by decide)

/-- C4: with a current recommendation and a title with non-whitespace content, a
successful save yields a history exactly one longer, whose first element is the new
entry carrying the freshly generated id and timestamp together with the title, profile
and recommendation, whose remaining elements are the previous list unchanged, and the
full new list is persisted. -/
theorem handleSave_prepends (freshId newDate : String) (s : AppState)
    (r : CareerRecommendation)
    (hrec : s.recommendation = some r) (htitle : jsTrim s.saveTitle ≠ "") :
    ∃ s', handleSave .ok freshId newDate s = .ok s'
      ∧ s'.history.length = s.history.length + 1
      ∧ s'.history.head? =
          some ⟨freshId, s.saveTitle, newDate, r, ⟨s.education, s.skills, s.interests⟩⟩
      ∧ s'.history.tail = s.history
      ∧ s'.store = some (Json.render (encodeHistory s'.history)) := by
  simp only [handleSave, hrec, saveToLocalStorage]
  rw [if_neg htitle]
  exact ⟨_, rfl, by simp, by simp, by simp, by simp⟩

theorem handleSave_prepends_witness :
    ∃ s', handleSave .ok "id-1" "Jan 1, 2026" exampleState = .ok s'
      ∧ s'.history.length = exampleState.history.length + 1
      ∧ s'.history.head? =
          some ⟨"id-1", exampleState.saveTitle, "Jan 1, 2026", exampleRec,
            ⟨exampleState.education, exampleState.skills, exampleState.interests⟩⟩
      ∧ s'.history.tail = exampleState.history
      ∧ s'.store = some (Json.render (encodeHistory s'.history)) :=
  handleSave_prepends "id-1" "Jan 1, 2026" exampleState exampleRec rfl (by decide)

/-- C5 counterexample: delete removes every entry whose id matches, not exactly one —
on a list holding two entries with the same id (reachable, since the startup read
accepts any stored list), `delete` removes both. -/
theorem deleteHistoryItem_removes_both_duplicates :
    (deleteHistoryItem .ok "dup" dupState).map (fun s => s.history)
        = .ok ([] : List HistoryItem)
    ∧ dupState.history.length = 2
    ∧ dupItem1.id = "dup" ∧ dupItem2.id = "dup"
    ∧ dupItem1 ∈ dupState.history := ⟨rfl, rfl, rfl, rfl, by decide⟩

theorem length_filter_not_add_countP {α : Type} (p : α → Bool) (l : List α) :
    (l.filter (fun a => !(p a))).length + l.countP p = l.length := by
  induction l with
  | nil => rfl
  | cons a l ih =>
    by_cases h : p a <;> simp [List.filter, List.countP_cons, h, ← ih] <;> omega

/-- C5 (amended): `delete(id)` removes exactly the entries whose id equals the given
id — exactly one when the id occurs once in the list, as the save path's generated ids
ensure — preserves the relative order of all other entries, and persists the resulting
full list. -/
theorem deleteHistoryItem_unique_id (did : String) (s : AppState)
    (hone : s.history.countP (fun e => e.id == did) = 1) :
    ∃ s', deleteHistoryItem .ok did s = .ok s'
      ∧ s'.history.length + 1 = s.history.length
      ∧ s'.history.Sublist s.history
      ∧ (∀ e ∈ s'.history, e.id ≠ did)
      ∧ (∀ e ∈ s.history, e.id ≠ did → e ∈ s'.history)
      ∧ s'.store = some (Json.render (encodeHistory s'.history)) := by
  refine ⟨_, rfl, ?_, ?_, ?_, ?_, ?_⟩
  · show (s.history.filter (fun item => item.id != did)).length + 1 = s.history.length
    have h := length_filter_not_add_countP (fun e => e.id == did) s.history
    rw [hone] at h
    simpa [bne] using h
  · show (s.history.filter (fun item => item.id != did)).Sublist s.history
    exact List.filter_sublist s.history
  · show ∀ e ∈ s.history.filter (fun item => item.id != did), e.id ≠ did
    intro e he
    exact bne_iff_ne.mp (List.mem_filter.mp he).2
  · show ∀ e ∈ s.history, e.id ≠ did →
        e ∈ s.history.filter (fun item => item.id != did)
    intro e he hne
    exact List.mem_filter.mpr ⟨he, bne_iff_ne.mpr hne⟩
  · rfl

theorem deleteHistoryItem_unique_id_witness :
    ∃ s', deleteHistoryItem .ok "dup" oneItemState = .ok s'
      ∧ s'.history.length + 1 = oneItemState.history.length
      ∧ s'.history.Sublist oneItemState.history
      ∧ (∀ e ∈ s'.history, e.id ≠ "dup")
      ∧ (∀ e ∈ oneItemState.history, e.id ≠ "dup" → e ∈ s'.history)
      ∧ s'.store = some (Json.render (encodeHistory s'.history)) :=
  deleteHistoryItem_unique_id "dup" oneItemState (by decide)

theorem Json.render_ne_empty (j : Json) : Json.render j ≠ "" := by
  obtain ⟨cs, h⟩ := renderV_head j
  simp [Json.render, h, String.ext_iff]

/-- C6: saving and then re-reading the stored collection the way the startup load does
(simulating a reload into any state `s₀`) reproduces the saved history, and in
particular its first entry equals the entry just saved: same id, title, timestamp,
profile field values and recommendation field values. -/
theorem save_then_reload_roundtrip (freshId newDate : String) (s s₀ : AppState)
    (r : CareerRecommendation)
    (hrec : s.recommendation = some r) (htitle : jsTrim s.saveTitle ≠ "") :
    ∃ s', handleSave .ok freshId newDate s = .ok s'
      ∧ loadHistoryEffect s'.store s₀ = some ({ s₀ with history := s'.history }, false)
      ∧ s'.history.head? =
          some ⟨freshId, s.saveTitle, newDate, r, ⟨s.education, s.skills, s.interests⟩⟩ := by
  simp only [handleSave, hrec, saveToLocalStorage]
  rw [if_neg htitle]
  refine ⟨_, rfl, ?_, by simp⟩
  simp only [loadHistoryEffect]
  rw [if_neg (Json.render_ne_empty _)]
  simp only [jsonParse_render, decodeHistory_encode]

theorem save_then_reload_roundtrip_witness :
    ∃ s', handleSave .ok "id-1" "Jan 1, 2026" exampleState = .ok s'
      ∧ loadHistoryEffect s'.store dupState
          = some ({ dupState with history := s'.history }, false)
      ∧ s'.history.head? =
          some ⟨"id-1", exampleState.saveTitle, "Jan 1, 2026", exampleRec,
            ⟨exampleState.education, exampleState.skills, exampleState.interests⟩⟩ :=
  save_then_reload_roundtrip "id-1" "Jan 1, 2026" exampleState dupState exampleRec
    rfl (by decide)

/-- C7: clearing yields the empty list and is idempotent — run on any state it empties
the history, and run again immediately it succeeds without error and changes nothing,
leaving the list empty both times. -/
theorem clearAll_idempotent (s : AppState) :
    ∃ s₁, clearAllHistory .ok s = .ok s₁ ∧ s₁.history = []
      ∧ clearAllHistory .ok s₁ = .ok s₁ ∧ s₁.history = [] :=
  ⟨_, rfl, rfl, rfl, rfl⟩

/-- C9: when there is no current recommendation, or the title trims to empty, save is a
no-op: the state — in particular the in-memory history and the durable storage value —
is returned exactly unchanged, no entry is created, and no storage write is even
attempted (the guard returns first, so this holds under a failing store too). -/
theorem handleSave_guard_noop (w : StorageWriteResult) (freshId newDate : String)
    (s : AppState)
    (h : s.recommendation = none ∨ jsTrim s.saveTitle = "") :
    handleSave w freshId newDate s = .ok s := by
  rcases h with h | h
  · simp [handleSave, h]
  · cases hrec : s.recommendation with
    | none => simp [handleSave, hrec]
    | some r => simp [handleSave, hrec, h]

theorem handleSave_guard_noop_witness :
    handleSave (.failure "QuotaExceededError") "id-1" "Jan 1, 2026"
        { exampleState with recommendation := none }
      = .ok { exampleState with recommendation := none }
    ∧ handleSave .ok "id-1" "Jan 1, 2026" { exampleState with saveTitle := "   " }
      = .ok { exampleState with saveTitle := "   " } :=
  ⟨handleSave_guard_noop _ _ _ _ (Or.inl rfl),
   handleSave_guard_noop _ _ _ _ (Or.inr (by decide))⟩

/-- C10: delete with an id matching no entry is a no-op on the list — the history keeps
the same entries in the same order — and, in general, delete never removes an entry
whose id differs from the given one. -/
theorem deleteHistoryItem_absent_noop (did : String) (s : AppState)
    (habs : ∀ e ∈ s.history, e.id ≠ did) :
    (∃ s', deleteHistoryItem .ok did s = .ok s' ∧ s'.history = s.history)
    ∧ (∀ (t s₂ : AppState), deleteHistoryItem .ok did t = .ok s₂ →
        ∀ e ∈ t.history, e.id ≠ did → e ∈ s₂.history) := by
  constructor
  · refine ⟨_, rfl, ?_⟩
    show s.history.filter (fun item => item.id != did) = s.history
    rw [List.filter_eq_self]
    intro a ha
    exact bne_iff_ne.mpr (habs a ha)
  · intro t s₂ h e he hne
    have hs₂ : s₂.history = t.history.filter (fun item => item.id != did) := by
      simp only [deleteHistoryItem, saveToLocalStorage, Except.ok.injEq] at h
      rw [← h]
    rw [hs₂]
    exact List.mem_filter.mpr ⟨he, bne_iff_ne.mpr hne⟩

theorem deleteHistoryItem_absent_noop_witness :
    (∃ s', deleteHistoryItem .ok "missing" dupState = .ok s'
        ∧ s'.history = dupState.history)
    ∧ (∀ (t s₂ : AppState), deleteHistoryItem .ok "missing" t = .ok s₂ →
        ∀ e ∈ t.history, e.id ≠ "missing" → e ∈ s₂.history) :=
  deleteHistoryItem_absent_noop "missing" dupState (by decide)

end PathFinder
